import Mathlib

/-!
Shallow embedding of the on-chain funding / fee-escalation subsystem of
peerswap-web (LND build, `cmd/psweb/ln/lnd.go` and the peg-in handlers of
`cmd/psweb/main.go`), together with proofs about the claims of the
natural-language specification.

The backend (LND wallet RPCs) and the pure bitcoin library calls
(deserialize, address decoding, psbt packing, transaction hashing) are
modelled as deterministic oracles collected in an `Env` structure.  The
effects the code performs against the backend (lease / release / fund /
publish / remove / bump calls) are recorded in an event trace, and the
backend-owned output-lock table is modelled explicitly, so that claims
about "locks still held" and "calls made before other calls" are statable.
-/

namespace PSWeb

/-- Byte strings are lists of naturals (each intended < 256). -/
abbrev Bytes := List Nat

/-- Embedding of Go `uint32(i)` applied to an `int`: wrap modulo 2^32. -/
def uint32cast (i : Int) : Nat := (i % (2 ^ 32 : Nat)).toNat

/-- Embedding of Go `uint64(i)` applied to an `int64`: wrap modulo 2^64. -/
def uint64cast (i : Int) : Nat := (i % (2 ^ 64 : Nat)).toNat

/-- Split helper for `strings.Split(s, ":")` over the character list. -/
def splitColonAux : List Char → List Char → List (List Char)
  | [], acc => [acc.reverse]
  | c :: cs, acc =>
      if c = ':' then acc.reverse :: splitColonAux cs []
      else splitColonAux cs (c :: acc)

/-- Embedding of Go `strings.Split(s, ":")`. -/
def goSplitColon (s : String) : List String :=
  (splitColonAux s.data []).map String.mk

/-- Parse a list of decimal digit characters (must be nonempty, all digits). -/
def parseDigits : List Char → Option Nat
  | [] => none
  | cs =>
      if cs.all Char.isDigit then
        some (cs.foldl (fun n c => n * 10 + (c.toNat - ('0').toNat)) 0)
      else none

/-- Embedding of Go `strconv.Atoi` (= ParseInt base 10, 64-bit): optional
sign, decimal digits, error on empty / malformed / out of int64 range. -/
def goAtoi (s : String) : Option Int :=
  let signed : Option Int :=
    match s.data with
    | '-' :: rest => (parseDigits rest).map (fun n => -(n : Int))
    | '+' :: rest => (parseDigits rest).map (fun n => (n : Int))
    | cs => (parseDigits cs).map (fun n => (n : Int))
  match signed with
  | some n => if n < -(2 ^ 63 : Int) ∨ n > (2 ^ 63 : Int) - 1 then none else some n
  | none => none

/-- Embedding of Go `strconv.ParseUint(s, 10, 64)`: decimal digits only,
no sign, error on empty / malformed / out of uint64 range. -/
def goParseUint64 (s : String) : Option Nat :=
  match parseDigits s.data with
  | some n => if n ≥ 2 ^ 64 then none else some n
  | none => none

/-- Lowercase hex digit for a value < 16. -/
def hexDigit (n : Nat) : Char :=
  if n < 10 then Char.ofNat (('0').toNat + n)
  else Char.ofNat (('a').toNat + (n - 10))

/-- Embedding of Go `hex.EncodeToString` over a byte list. -/
def hexEncode (bs : Bytes) : String :=
  String.mk (bs.foldr (fun b acc => hexDigit (b / 16 % 16) :: hexDigit (b % 16) :: acc) [])

/-- A reference to a specific spendable output: txid string plus output
index, the unit of locking (`lnrpc.OutPoint` with `TxidStr`). -/
structure OutPointR where
  txidStr : String
  outputIndex : Nat
  deriving DecidableEq, Repr

/-- An unspent output as reported by the wallet backend
(`walletrpc.ListUnspent` item). -/
structure LndUtxo where
  address : String
  amountSat : Int
  confirmations : Int
  txidBytes : Bytes
  txidStr : String
  outputIndex : Nat
  deriving DecidableEq, Repr

/-- A transaction input of the manually assembled skeleton (`wire.TxIn`);
the previous outpoint hash is kept as the raw txid bytes. -/
structure TxInR where
  prevTxidBytes : Bytes
  prevIndex : Nat
  deriving DecidableEq, Repr

/-- A transaction output of the skeleton (`wire.TxOut`). -/
structure TxOutR where
  pkScript : Bytes
  value : Int
  deriving DecidableEq, Repr

/-- The deserialized wire transaction (`wire.MsgTx`). -/
structure MsgTx where
  version : Int
  txIn : List TxInR
  txOut : List TxOutR
  deriving DecidableEq, Repr

/-- The authoritative record of a successful broadcast (`ln.SentResult`). -/
structure SentResult where
  rawHex : String
  txId : String
  amountSat : Int
  deriving DecidableEq, Repr

/-- One output of a wallet-history transaction (`lnrpc.OutputDetail`). -/
structure OutputDetail where
  address : String
  amount : Int
  outputIndex : Int
  deriving DecidableEq, Repr

/-- A previous outpoint of a wallet-history transaction
(`lnrpc.PreviousOutPoint`), kept as its "txid:index" string. -/
structure PrevOutPoint where
  outpoint : String
  deriving DecidableEq, Repr

/-- A transaction from the backend's local history (`lnrpc.Transaction`). -/
structure LnTx where
  txHash : String
  numConfirmations : Int
  outputDetails : List OutputDetail
  previousOutpoints : List PrevOutPoint
  rawTxHex : String
  deriving DecidableEq, Repr

/-- Go error outcomes: an error value carrying a message, or a runtime
panic (index out of range on a malformed outpoint string, etc.). -/
inductive GoErr where
  | msg (s : String)
  | goPanic
  deriving DecidableEq, Repr

/-- `lnd.go` line 42: the default lock id used by LND's own funding path. -/
def internalLockId : Bytes :=
  [0xed, 0xe1, 0x9a, 0x92, 0xed, 0x32, 0x1a, 0x47,
   0x05, 0xf8, 0xa1, 0xcc, 0xcc, 0x1d, 0x4f, 0x61,
   0x82, 0x54, 0x5d, 0x4b, 0xb4, 0xfa, 0xe0, 0x8b,
   0xd5, 0x93, 0x78, 0x31, 0xb7, 0xe3, 0x8f, 0x98]

/-- `lnd.go` line 49: the custom lock id used when funding a manually
constructed PSBT. -/
def myLockId : Bytes :=
  [0x00, 0xe1, 0x9a, 0x92, 0xed, 0x32, 0x1a, 0x47,
   0x05, 0xf8, 0xa1, 0xcc, 0xcc, 0x1d, 0x4f, 0x61,
   0x82, 0x54, 0x5d, 0x4b, 0xb4, 0xfa, 0xe0, 0x8b,
   0xd5, 0x93, 0x78, 0x31, 0xb7, 0xe3, 0x8f, 0x98]

/-- Events recorded against the backend, in call order. -/
inductive Ev where
  | evFund (inputs : List OutPointR) (outputs : List (String × Nat)) (feeRate : Nat)
  | evFundCoinSelect (psbtBytes : Bytes) (changeIndex : Nat) (feeRate : Nat)
  | evLease (lockId : Bytes) (op : OutPointR) (expirySeconds : Nat)
  | evRelease (lockId : Bytes) (op : OutPointR)
  | evFinalize (psbtBytes : Bytes)
  | evPublish (raw : Bytes)
  | evRemoveTx (txid : String)
  | evBumpFee (op : OutPointR) (satPerVbyte : Nat)
  deriving DecidableEq, Repr

/-- Mutable world state: the backend-owned lock table and the call trace. -/
structure St where
  locks : List (Bytes × OutPointR)
  trace : List Ev
  deriving DecidableEq, Repr

/-- The environment: backend RPC behaviour plus the pure bitcoin-library
functions, all deterministic oracles.  `Option String` responses mean
`none` = success, `some m` = error `m`. -/
structure Env where
  fundPsbt : List OutPointR → List (String × Nat) → Nat → Except String Bytes
  fundPsbtCoinSelect : Bytes → Nat → Nat → Except String Bytes
  feeSatsFromPsbt : Bytes → Except String Int
  releaseOutput : Bytes → OutPointR → Option String
  leaseOutput : Bytes → OutPointR → Nat → Option String
  listUnspent : Except String (List LndUtxo)
  decodeAddress : String → String → Except String Nat
  payToAddrScript : Nat → Except String Bytes
  psbtFromUnsignedTx : MsgTx → Except String Bytes
  finalizePsbt : Bytes → Except String Bytes
  deserializeTx : Bytes → Except String MsgTx
  publish : Bytes → Option String
  hashOfTx : MsgTx → String
  canRBF : Bool
  chain : String
  connectErr : Option String
  getTransactions : Except String (List LnTx)
  removeTransaction : String → Except String String
  bumpFee : OutPointR → Nat → Option String

/-- Append an event to the trace (calls are recorded in order). -/
def addEv (st : St) (e : Ev) : St := { st with trace := st.trace ++ [e] }

/-- Record an output as locked under a lock id. -/
def lockAdd (st : St) (lockId : Bytes) (op : OutPointR) : St :=
  { st with locks := st.locks ++ [(lockId, op)] }

/-- Record a list of outputs as locked under a lock id. -/
def lockAddAll (st : St) (lockId : Bytes) (ops : List OutPointR) : St :=
  { st with locks := st.locks ++ ops.map (fun op => (lockId, op)) }

/-- Remove every lock entry for this lock id and outpoint. -/
def lockDel (st : St) (lockId : Bytes) (op : OutPointR) : St :=
  { st with locks := st.locks.filter (fun p => ¬(p.1 = lockId ∧ p.2 = op)) }

/-- `lnd.go` 330–355, `releaseOutputs`: walk the "txid:index" strings; a
non-integer index logs and BREAKS (returning nil, leaving the rest
locked); a backend error on an individual release is returned at once. -/
def releaseOutputs (env : Env) : List String → Bytes → St → St × Except GoErr Unit
  | [], _, st => (st, .ok ())
  | u :: rest, lockId, st =>
      match (goSplitColon u).get? 1 with
      | none => (st, .error .goPanic)
      | some idxStr =>
        match goAtoi idxStr with
        | none => (st, .ok ())
        | some idx =>
          let op : OutPointR := ⟨(goSplitColon u).headD "", uint32cast idx⟩
          let st1 := addEv st (.evRelease lockId op)
          match env.releaseOutput lockId op with
          | some e => (st1, .error (.msg e))
          | none => releaseOutputs env rest lockId (lockDel st1 lockId op)

/-- Run `releaseOutputs` discarding its error return (as the Go code does
at several call sites), except that a panic still aborts. -/
def releaseIgnoringError (env : Env) (utxos : List String) (lockId : Bytes) (st : St) :
    St × Option GoErr :=
  match releaseOutputs env utxos lockId st with
  | (st1, .error .goPanic) => (st1, some .goPanic)
  | (st1, _) => (st1, none)

/-- `lnd.go` 357–373: parse the "txid:index" strings into outpoints;
a malformed index is returned as an error (unlike `releaseOutputs`). -/
def parseInputs : List String → Except GoErr (List OutPointR)
  | [] => .ok []
  | u :: rest =>
      match (goSplitColon u).get? 1 with
      | none => .error .goPanic
      | some idxStr =>
        match goAtoi idxStr with
        | none => .error (.msg ("invalid output index: " ++ idxStr))
        | some idx =>
          (parseInputs rest).map
            (fun ops => (⟨(goSplitColon u).headD "", uint32cast idx⟩ : OutPointR) :: ops)

/-- `lnd.go` 357–395, `fundPsbt`: fund a raw template (explicit inputs,
address→amount outputs, sat/vbyte fee, min confs 1, no unconfirmed,
taproot change).  On success the backend leases the template inputs under
its internal lock id, which is why the caller releases them with
`internalLockId` before each retry. -/
def fundPsbtGo (env : Env) (utxos : List String) (outputs : List (String × Nat))
    (feeRate : Nat) (st : St) : St × Except GoErr Bytes :=
  match parseInputs utxos with
  | .error e => (st, .error e)
  | .ok inputs =>
    let st1 := addEv st (.evFund inputs outputs feeRate)
    match env.fundPsbt inputs outputs feeRate with
    | .error e => (st1, .error (.msg e))
    | .ok psbt => (lockAddAll st1 internalLockId inputs, .ok psbt)

/-- Go map assignment `m[k] = v` for the address→amount output map. -/
def mapSet (m : List (String × Nat)) (k : String) (v : Nat) : List (String × Nat) :=
  if m.any (fun p => p.1 = k) then m.map (fun p => if p.1 = k then (k, v) else p)
  else m ++ [(k, v)]

/-- Outcome of the fee-subtraction retry loop. -/
inductive HaircutOut where
  | success (psbt : Bytes)
  | releaseFailed (e : GoErr)
  | exhausted (e : GoErr)
  deriving DecidableEq, Repr

/-- The haircut values attempted by the Go loop
`for haircut := int64(0); haircut <= 2000; haircut += 5`. -/
def haircutList : List Int := (List.range 401).map (fun (i : Nat) => 5 * (i : Int))

/-- `lnd.go` 257–275: one run of the fee-subtraction retry loop over the
remaining haircut values.  Each iteration releases the previous attempt's
internal-lock leases, recomputes the output amount
`amount − feeSats − haircut` (clamped at zero), and re-funds; the loop
stops at the first successful funding, a release error aborts the whole
call, and after the last haircut the last funding error is handed to the
caller. -/
def haircutLoop (env : Env) (utxos : List String) (addr : String)
    (amount feeSats : Int) (feeRate : Nat) :
    List Int → List (String × Nat) → St → St × HaircutOut
  | [], _, st => (st, .exhausted (.msg "haircut loop not entered"))
  | h :: rest, outputs, st =>
      match releaseOutputs env utxos internalLockId st with
      | (st1, .error e) => (st1, .releaseFailed e)
      | (st1, .ok _) =>
        let finalAmount0 := amount - feeSats - h
        let finalAmount := if finalAmount0 < 0 then 0 else finalAmount0
        let outputs1 := mapSet outputs addr (uint64cast finalAmount)
        match fundPsbtGo env utxos outputs1 feeRate st1 with
        | (st2, .ok psbt) => (st2, .success psbt)
        | (st2, .error e) =>
          match rest with
          | [] => (st2, .exhausted e)
          | _ => haircutLoop env utxos addr amount feeSats feeRate rest outputs1 st2

/-- Collect matching unspent outputs for one wallet UTXO against every
caller string (`lnd.go` 412–442, the inner loop): on a match, make a
chain hash from the txid bytes (errors unless 32 bytes), lease the
outpoint under the manual lock id for 10 seconds, and append the input. -/
def spendAllInner (env : Env) (utxo : LndUtxo) :
    List String → St → List TxInR → St × Except GoErr (List TxInR)
  | [], st, acc => (st, .ok acc)
  | u :: rest, st, acc =>
      match (goSplitColon u).get? 1 with
      | none => (st, .error .goPanic)
      | some idxStr =>
        match goAtoi idxStr with
        | none => (st, .error (.msg ("invalid output index: " ++ idxStr)))
        | some idx =>
          if utxo.txidStr = (goSplitColon u).headD "" ∧ utxo.outputIndex = uint32cast idx then
            if utxo.txidBytes.length ≠ 32 then
              (st, .error (.msg "invalid hash length"))
            else
              let op : OutPointR := ⟨utxo.txidStr, utxo.outputIndex⟩
              let st1 := addEv st (.evLease myLockId op 10)
              match env.leaseOutput myLockId op 10 with
              | some e => (st1, .error (.msg e))
              | none =>
                  spendAllInner env utxo rest (lockAdd st1 myLockId op)
                    (acc ++ [⟨utxo.txidBytes, utxo.outputIndex⟩])
          else spendAllInner env utxo rest st acc

/-- The outer loop of `fundPsbtSpendAll` over the wallet's unspent set. -/
def spendAllOuter (env : Env) (utxoStrings : List String) :
    List LndUtxo → St → List TxInR → St × Except GoErr (List TxInR)
  | [], st, acc => (st, .ok acc)
  | utxo :: more, st, acc =>
      match spendAllInner env utxo utxoStrings st acc with
      | (st1, .error e) => (st1, .error e)
      | (st1, .ok acc1) => spendAllOuter env utxoStrings more st1 acc1

/-- `lnd.go` 398–499, `fundPsbtSpendAll`: manual PSBT construction for
LND 0.18+ spending exact UTXOs with no change.  Lists unspent, leases
each matching outpoint under `myLockId`, builds a version-2 skeleton
with one 1-satoshi output to the destination, wraps it as an unsigned
PSBT and funds it with output index 0 declared as the existing change
output; only a funding rejection triggers a release of the leases. -/
def fundPsbtSpendAllGo (env : Env) (utxoStrings : List String) (address : String)
    (feeRate : Nat) (st : St) : St × Except GoErr Bytes :=
  match env.listUnspent with
  | .error e => (st, .error (.msg e))
  | .ok unspent =>
    match spendAllOuter env utxoStrings unspent st [] with
    | (st1, .error e) => (st1, .error e)
    | (st1, .ok txIns) =>
      let netParams := if env.chain = "mainnet" then "mainnet" else "testnet3"
      match env.decodeAddress address netParams with
      | .error e => (st1, .error (.msg e))
      | .ok parsedTok =>
        match env.payToAddrScript parsedTok with
        | .error e => (st1, .error (.msg e))
        | .ok pkScript =>
          let tx : MsgTx := ⟨2, txIns, [⟨pkScript, 1⟩]⟩
          match env.psbtFromUnsignedTx tx with
          | .error e => (st1, .error (.msg e))
          | .ok psbtB =>
            let st2 := addEv st1 (.evFundCoinSelect psbtB 0 feeRate)
            match env.fundPsbtCoinSelect psbtB 0 feeRate with
            | .error e =>
              match releaseIgnoringError env utxoStrings myLockId st2 with
              | (st3, some p) => (st3, .error p)
              | (st3, none) => (st3, .error (.msg e))
            | .ok funded => (st2, .ok funded)

/-- `lnd.go` 284–327: the shared finalize / deserialize / publish tail of
`SendCoinsWithUtxos`.  The transaction id and raw hex of the result come
from the locally deserialized raw bytes that are published. -/
def finishSend (env : Env) (utxos : List String) (lockId : Bytes) (psbt : Bytes)
    (amount : Int) (subtractFeeFromAmount : Bool) (st : St) :
    St × Except GoErr SentResult :=
  let st1 := addEv st (.evFinalize psbt)
  match env.finalizePsbt psbt with
  | .error e =>
    match releaseIgnoringError env utxos lockId st1 with
    | (st2, some p) => (st2, .error p)
    | (st2, none) => (st2, .error (.msg e))
  | .ok rawTx =>
    match env.deserializeTx rawTx with
    | .error e => (st1, .error (.msg e))
    | .ok msgTx =>
      let st2 := addEv st1 (.evPublish rawTx)
      match env.publish rawTx with
      | some e =>
        match releaseIgnoringError env utxos lockId st2 with
        | (st3, some p) => (st3, .error p)
        | (st3, none) => (st3, .error (.msg e))
      | none =>
        if subtractFeeFromAmount then
          match msgTx.txOut with
          | [] => (st2, .error .goPanic)
          | o :: _ => (st2, .ok ⟨hexEncode rawTx, env.hashOfTx msgTx, o.value⟩)
        else (st2, .ok ⟨hexEncode rawTx, env.hashOfTx msgTx, amount⟩)

/-- `lnd.go` 209–328, `SendCoinsWithUtxos`: fund (directly, via the
sweep-all constructor, or via the pre-0.18 fee-subtraction retry loop),
then finalize, deserialize and publish. -/
def SendCoinsWithUtxos (env : Env) (utxos : List String) (addr : String)
    (amount : Int) (feeRate : Nat) (subtractFeeFromAmount : Bool) (st : St) :
    St × Except GoErr SentResult :=
  match env.connectErr with
  | some e => (st, .error (.msg e))
  | none =>
  if subtractFeeFromAmount ∧ utxos = [] then
    (st, .error (.msg "at least one unspent output must be selected to send funds without change"))
  else
    let outputs : List (String × Nat) :=
      if subtractFeeFromAmount then [] else [(addr, uint64cast amount)]
    if subtractFeeFromAmount ∧ env.canRBF then
      match fundPsbtSpendAllGo env utxos addr feeRate st with
      | (st1, .error e) => (st1, .error e)
      | (st1, .ok psbt) => finishSend env utxos myLockId psbt amount subtractFeeFromAmount st1
    else
      match fundPsbtGo env utxos outputs feeRate st with
      | (st1, .error e) => (st1, .error e)
      | (st1, .ok psbt) =>
        if subtractFeeFromAmount then
          match env.feeSatsFromPsbt psbt with
          | .error e => (st1, .error (.msg e))
          | .ok feeSats =>
            match haircutLoop env utxos addr amount feeSats feeRate haircutList outputs st1 with
            | (st2, .releaseFailed e) => (st2, .error e)
            | (st2, .exhausted e) =>
              match releaseIgnoringError env utxos internalLockId st2 with
              | (st3, some p) => (st3, .error p)
              | (st3, none) => (st3, .error e)
            | (st2, .success psbt2) =>
                finishSend env utxos internalLockId psbt2 amount subtractFeeFromAmount st2
        else finishSend env utxos internalLockId psbt amount subtractFeeFromAmount st1

/-- `lnd.go` 158–171, `getTransaction`: list the wallet's local history
and return the first transaction whose hash matches, else an error. -/
def getTransactionGo (env : Env) (txid : String) : Except String LnTx :=
  match env.getTransactions with
  | .error e => .error e
  | .ok txs =>
    match txs.find? (fun tx => tx.txHash = txid) with
    | some tx => .ok tx
    | none => .error "txid not found"

/-- `lnd.go` 173–180, `GetTxConfirmations`: number of confirmations and
whether the tx can be fee bumped; `(-1, false)` signals that the tx was
not found in the local history. -/
def GetTxConfirmations (env : Env) (txid : String) : Int × Bool :=
  match getTransactionGo env txid with
  | .ok tx => (tx.numConfirmations, decide (1 < tx.outputDetails.length))
  | .error _ => (-1, false)

/-- The peg-in fields of the process configuration read by the
fee-escalation controller. -/
structure PeginConfig where
  peginTxId : String
  peginAddress : String
  peginAmount : Int
  deriving DecidableEq, Repr

/-- `lnd.go` 566–595, `doCPFP`: refuse if the peg-in transaction has no
change output (exactly one output); otherwise bump the first output whose
address is not the peg-in address (sentinel index 999 if none is found,
so that the bump fails at the backend). -/
def doCPFP (env : Env) (cfg : PeginConfig) (outputs : List OutputDetail)
    (newFeeRate : Nat) (st : St) : St × Except GoErr Unit :=
  if outputs.length = 1 then
    (st, .error (.msg "peg-in transaction has no change output, not possible to CPFP"))
  else
    let outputIndex :=
      match outputs.find? (fun o => o.address ≠ cfg.peginAddress) with
      | some o => uint32cast o.outputIndex
      | none => 999
    let st1 := addEv st (.evBumpFee ⟨cfg.peginTxId, outputIndex⟩ newFeeRate)
    match env.bumpFee ⟨cfg.peginTxId, outputIndex⟩ newFeeRate with
    | some e => (st1, .error (.msg e))
    | none => (st1, .ok ())

/-- `lnd.go` 501–564, `BumpPeginFee`: CPFP when the node cannot RBF;
otherwise remove the pending transaction, release both lock tokens on all
its former inputs, and re-run the whole send flow at the new fee rate,
subtracting the fee from the amount exactly when the removed transaction
had a single output. -/
def BumpPeginFee (env : Env) (cfg : PeginConfig) (feeRate : Nat) (st : St) :
    St × Except GoErr SentResult :=
  match env.connectErr with
  | some e => (st, .error (.msg e))
  | none =>
  match getTransactionGo env cfg.peginTxId with
  | .error e => (st, .error (.msg e))
  | .ok tx =>
    if ¬env.canRBF then
      match doCPFP env cfg tx.outputDetails feeRate st with
      | (st1, .error e) => (st1, .error e)
      | (st1, .ok _) => (st1, .ok ⟨"", cfg.peginTxId, cfg.peginAmount⟩)
    else
      let st1 := addEv st (.evRemoveTx cfg.peginTxId)
      match env.removeTransaction cfg.peginTxId with
      | .error e => (st1, .error (.msg e))
      | .ok status =>
        if status ≠ "Successfully removed transaction" then
          (st1, .error (.msg ("cannot remove the previous transaction: " ++ status)))
        else
          let utxos := tx.previousOutpoints.map (fun p => p.outpoint)
          match releaseIgnoringError env utxos internalLockId st1 with
          | (st2, some p) => (st2, .error p)
          | (st2, none) =>
            match releaseIgnoringError env utxos myLockId st2 with
            | (st3, some p) => (st3, .error p)
            | (st3, none) =>
              SendCoinsWithUtxos env utxos cfg.peginAddress cfg.peginAmount feeRate
                (tx.outputDetails.length == 1) st3

/-- The environment of the periodic timer (`main.go startTimer`): the
confirmation lookup, the bitcoin-core raw transaction fetch, the txout
proof, and the long-running Elements claim call, all RPC wrappers that
live outside the timer itself. -/
structure TimerEnv where
  getTxConfs : String → Int
  getRawTransaction : String → Except String String
  getTxOutProof : String → String
  claimPegin : String → String → String → Except String String

/-- The peg-in fields of the persisted configuration the timer mutates. -/
structure TimerState where
  peginTxId : String
  peginClaimScript : String
  deriving DecidableEq, Repr

/-- `main.go` 998–1041, one iteration of `startTimer`'s peg-in tracking:
while a pending txid is set, once it reaches 102 confirmations, fetch the
raw transaction; if that succeeds, attempt the claim once (its outcome
only affects logging); in either case clear the pending txid and save.
Returns the new state together with the txids for which a claim was
attempted during this tick. -/
def timerTick (env : TimerEnv) (cfg : TimerState) : TimerState × List String :=
  if cfg.peginTxId ≠ "" then
    let confs := env.getTxConfs cfg.peginTxId
    if confs ≥ 102 then
      match env.getRawTransaction cfg.peginTxId with
      | .ok rawTx =>
        let _ := env.claimPegin rawTx (env.getTxOutProof cfg.peginTxId) cfg.peginClaimScript
        ({ cfg with peginTxId := "" }, [cfg.peginTxId])
      | .error _ => ({ cfg with peginTxId := "" }, [])
    else (cfg, [])
  else (cfg, [])

/-- Run the timer for a sequence of ticks, with a possibly different
external world at each tick, collecting all claim attempts. -/
def timerRun : List TimerEnv → TimerState → TimerState × List String
  | [], cfg => (cfg, [])
  | e :: rest, cfg =>
      let t := timerTick e cfg
      let r := timerRun rest t.1
      (r.1, t.2 ++ r.2)

/-- Environment of the `/bumpfee` web handler: the `ln` package calls it
makes (old single-return API: look up a wallet transaction by id, and
request a CPFP fee bump for one outpoint at a sat/vbyte rate). -/
structure WebEnv where
  lnGetTransaction : String → Except String LnTx
  lnBumpFee : String → Nat → Nat → Option String

/-- The peg-in fields of the configuration the web handlers read/write. -/
structure WebConfig where
  peginTxId : String
  peginAmount : Int
  peginFeeRate : Nat
  deriving DecidableEq, Repr

/-- Outcome of a web handler: an error redirect with a message, a success
redirect, or a runtime panic. -/
inductive HandlerOut where
  | redirectErr (msg : String)
  | redirectOk
  | panicked
  deriving DecidableEq, Repr

/-- A BumpFee call issued by the handler: txid, output index, sat/vbyte. -/
structure BumpCall where
  txid : String
  outputIndex : Nat
  satPerVbyte : Nat
  deriving DecidableEq, Repr

/-- `main.go` 1241–1294, `bumpfeeHandler`: parse the requested fee rate,
require a pending peg-in, look its transaction up, locate the change
output as the first output whose amount differs from the peg-in amount,
refuse when there is no change, then request the bump and persist the
rate used.  Returns the updated config, the BumpFee calls issued, and the
handler outcome. -/
def bumpfeeHandler (env : WebEnv) (cfg : WebConfig) (feeRateForm : String) :
    WebConfig × List BumpCall × HandlerOut :=
  match goParseUint64 feeRateForm with
  | none => (cfg, [], .redirectErr "invalid fee rate")
  | some fee =>
    if cfg.peginTxId = "" then (cfg, [], .redirectErr "no pending peg-in")
    else
      match env.lnGetTransaction cfg.peginTxId with
      | .error e => (cfg, [], .redirectErr e)
      | .ok tx =>
        let index :=
          match tx.outputDetails.findIdx? (fun o => o.amount ≠ cfg.peginAmount) with
          | some i => i % 2 ^ 32
          | none => 0
        match tx.outputDetails.get? index with
        | none => (cfg, [], .panicked)
        | some o =>
          if o.amount = cfg.peginAmount then
            (cfg, [], .redirectErr "peg-in tx has no change, not possible to bump")
          else
            let call : BumpCall := ⟨cfg.peginTxId, index, fee⟩
            match env.lnBumpFee cfg.peginTxId index fee with
            | some e => (cfg, [call], .redirectErr e)
            | none => ({ cfg with peginFeeRate := fee % 2 ^ 32 }, [call], .redirectOk)

/-- The published raw transactions recorded in a trace, in order. -/
def pubEvents (t : List Ev) : List Bytes :=
  t.filterMap (fun e => match e with | .evPublish raw => some raw | _ => none)

/-- The raw-template funding calls recorded in a trace, in order. -/
def fundEvents (t : List Ev) : List Ev :=
  t.filter (fun e => match e with | .evFund _ _ _ => true | _ => false)

/-- The lock table after releasing a list of outpoints under one lock id
(the cumulative effect of a successful `releaseOutputs` run). -/
def remLocks (locks : List (Bytes × OutPointR)) (lockId : Bytes) :
    List OutPointR → List (Bytes × OutPointR)
  | [] => locks
  | op :: rest =>
      remLocks (locks.filter (fun p => ¬(p.1 = lockId ∧ p.2 = op))) lockId rest

/-- The matching test of `fundPsbtSpendAll`'s nested loop: a wallet UTXO
matches a caller string "txid:index" when the txid strings agree and the
parsed index (cast to uint32) agrees. -/
def spendAllMatch (utxo : LndUtxo) (u : String) : Bool :=
  match (goSplitColon u).get? 1 with
  | none => false
  | some s =>
    match goAtoi s with
    | none => false
    | some idx => utxo.txidStr = (goSplitColon u).headD "" ∧ utxo.outputIndex = uint32cast idx

/-- A fixed pending peg-in transaction used by the concrete scenarios:
two outputs (destination + change), one former input "t1:0". -/
def txPegin : LnTx :=
  ⟨"ptx", 5, [⟨"pegaddr", 500, 0⟩, ⟨"chg", 100, 1⟩], [⟨"t1:0"⟩], "raw"⟩

/-- A simple concrete environment for the closed scenarios: every backend
call succeeds, the wallet holds one 32-byte-txid UTXO "t1:0", and the
local history holds `txPegin`. -/
def baseEnv : Env where
  fundPsbt := fun inputs outputs _ =>
    if outputs.isEmpty then .ok [1, 2, 3]
    else if outputs.any (fun p => 90 ≤ p.2) then .error "insufficient funds"
    else .ok (7 :: inputs.map (fun o => o.outputIndex))
  fundPsbtCoinSelect := fun p _ _ => .ok (9 :: p)
  feeSatsFromPsbt := fun _ => .ok 10
  releaseOutput := fun _ _ => none
  leaseOutput := fun _ _ _ => none
  listUnspent := .ok [⟨"addr1", 1000, 3, List.replicate 32 5, "t1", 0⟩]
  decodeAddress := fun _ _ => .ok 42
  payToAddrScript := fun _ => .ok [0x51]
  psbtFromUnsignedTx := fun tx => .ok (tx.txIn.map (fun i => i.prevIndex))
  finalizePsbt := fun p => .ok (99 :: p)
  deserializeTx := fun _ => .ok ⟨2, [], [⟨[0x51], 77⟩, ⟨[0x52], 23⟩]⟩
  publish := fun _ => none
  hashOfTx := fun tx => "hash" ++ toString tx.txOut.length
  canRBF := true
  chain := "mainnet"
  connectErr := none
  getTransactions := .ok [txPegin]
  removeTransaction := fun _ => .ok "Successfully removed transaction"
  bumpFee := fun _ _ => none

/-- A variant of the base environment whose backend refuses to release
the outpoint "t2:1". -/
def relFailEnv : Env :=
  { baseEnv with releaseOutput := fun _ op => if op.txidStr = "t2" then some "boom" else none }

/-- The base environment without RBF capability (LND before 0.18). -/
def cpfpEnv : Env := { baseEnv with canRBF := false }

/-- An RBF-incapable environment whose pending peg-in transaction has a
single output (no change). -/
def oneOutEnv : Env :=
  { baseEnv with
    canRBF := false
    getTransactions := .ok [⟨"ptx", 5, [⟨"pegaddr", 500, 0⟩], [], "raw"⟩] }

/-- A timer world where the peg-in is at 102 confirmations but the
bitcoin-core raw transaction fetch fails. -/
def rawFailTimerEnv : TimerEnv :=
  ⟨fun _ => 102, fun _ => .error "getrawtransaction failed", fun _ => "proof",
   fun _ _ _ => .ok "liquidtx"⟩

/-- A timer world where the peg-in is at 102 confirmations and all calls
succeed. -/
def okTimerEnv : TimerEnv :=
  ⟨fun _ => 102, fun _ => .ok "rawtx", fun _ => "proof", fun _ _ _ => .ok "liquidtx"⟩

/-- The web environment of the concrete bump scenario: the pending
transaction is `txPegin` and the backend accepts any bump request. -/
def bumpWebEnv : WebEnv := ⟨fun _ => .ok txPegin, fun _ _ _ => none⟩

/-- A sweep-all environment whose destination address fails to decode. -/
def decodeFailEnv : Env :=
  { baseEnv with decodeAddress := fun _ _ => .error "checksum mismatch" }

/-- A sweep-all environment with two matching wallet UTXOs where leasing
the second outpoint fails after the first was leased. -/
def leaseFailEnv : Env :=
  { baseEnv with
    listUnspent := .ok
      [⟨"addr1", 1000, 3, List.replicate 32 5, "t1", 0⟩,
       ⟨"addr2", 2000, 3, List.replicate 32 6, "t2", 0⟩]
    leaseOutput := fun _ op _ => if op.txidStr = "t2" then some "already leased" else none }

/-- A sweep-all environment whose coin-select funding call is rejected. -/
def fundFailEnv : Env :=
  { baseEnv with fundPsbtCoinSelect := fun _ _ _ => .error "insufficient funds" }

/-- An RBF-incapable environment where funding succeeds only for the
empty output map, so the fee-subtraction retry loop always fails. -/
def exhaustEnv : Env :=
  { baseEnv with
    canRBF := false
    fundPsbt := fun _ outputs _ =>
      if outputs.isEmpty then .ok [1] else .error "insufficient funds" }

/-- The output amount funded by one iteration of the retry loop:
requested amount minus extracted fee minus haircut, clamped at zero,
cast to uint64. -/
def clampAmt (amount feeSats h : Int) : Nat :=
  uint64cast (if amount - feeSats - h < 0 then 0 else amount - feeSats - h)

/-! ### Basic state, trace and lock-table lemmas -/

@[simp] theorem addEv_locks (st : St) (e : Ev) : (addEv st e).locks = st.locks := rfl

@[simp] theorem addEv_trace (st : St) (e : Ev) : (addEv st e).trace = st.trace ++ [e] := rfl

@[simp] theorem lockDel_trace (st : St) (lockId : Bytes) (op : OutPointR) :
    (lockDel st lockId op).trace = st.trace := rfl

@[simp] theorem lockDel_locks (st : St) (lockId : Bytes) (op : OutPointR) :
    (lockDel st lockId op).locks =
      st.locks.filter (fun p => ¬(p.1 = lockId ∧ p.2 = op)) := rfl

@[simp] theorem lockAdd_trace (st : St) (lockId : Bytes) (op : OutPointR) :
    (lockAdd st lockId op).trace = st.trace := rfl

@[simp] theorem lockAddAll_trace (st : St) (lockId : Bytes) (ops : List OutPointR) :
    (lockAddAll st lockId ops).trace = st.trace := rfl

@[simp] theorem lockAddAll_locks (st : St) (lockId : Bytes) (ops : List OutPointR) :
    (lockAddAll st lockId ops).locks = st.locks ++ ops.map (fun op => (lockId, op)) := rfl

@[simp] theorem pubEvents_nil : pubEvents [] = [] := rfl

@[simp] theorem pubEvents_append (a b : List Ev) :
    pubEvents (a ++ b) = pubEvents a ++ pubEvents b := by
  simp [pubEvents]

@[simp] theorem fundEvents_nil : fundEvents [] = [] := rfl

@[simp] theorem fundEvents_append (a b : List Ev) :
    fundEvents (a ++ b) = fundEvents a ++ fundEvents b := by
  simp [fundEvents]

theorem remLocks_nil (locks : List (Bytes × OutPointR)) (lockId : Bytes) :
    remLocks locks lockId [] = locks := rfl

theorem remLocks_subset (lockId : Bytes) :
    ∀ (ops : List OutPointR) (locks : List (Bytes × OutPointR)),
      ∀ p ∈ remLocks locks lockId ops, p ∈ locks := by
  intro ops
  induction ops with
  | nil => intro locks p hp; simpa [remLocks] using hp
  | cons op rest ih =>
      intro locks p hp
      have h1 : p ∈ locks.filter (fun p => ¬(p.1 = lockId ∧ p.2 = op)) := by
        exact ih _ p (by simpa [remLocks] using hp)
      exact List.mem_of_mem_filter h1

theorem remLocks_not_mem (lockId : Bytes) (op : OutPointR) :
    ∀ (ops : List OutPointR) (locks : List (Bytes × OutPointR)),
      op ∈ ops → (lockId, op) ∉ remLocks locks lockId ops := by
  intro ops
  induction ops with
  | nil => intro locks h; cases h
  | cons op₀ rest ih =>
      intro locks hmem hcontra
      rcases List.mem_cons.mp hmem with h | h
      · subst h
        have h1 := remLocks_subset lockId rest _ _ hcontra
        simp [List.mem_filter] at h1
      · exact ih _ h hcontra

theorem remLocks_mem_of (lockId : Bytes) :
    ∀ (ops : List OutPointR) (locks : List (Bytes × OutPointR)) (p : Bytes × OutPointR),
      p ∈ locks → (p.1 ≠ lockId ∨ p.2 ∉ ops) → p ∈ remLocks locks lockId ops := by
  intro ops
  induction ops with
  | nil => intro locks p hp _; simpa [remLocks] using hp
  | cons op₀ rest ih =>
      intro locks p hp hside
      have hfilter : p ∈ locks.filter (fun p => ¬(p.1 = lockId ∧ p.2 = op₀)) := by
        rcases hside with h | h
        · simp only [List.mem_filter, decide_not, Bool.not_eq_eq_eq_not, Bool.not_true,
            decide_eq_false_iff_not]
          exact ⟨hp, fun hc => h hc.1⟩
        · simp only [List.mem_filter, decide_not, Bool.not_eq_eq_eq_not, Bool.not_true,
            decide_eq_false_iff_not]
          exact ⟨hp, fun hc => h (by rw [hc.2]; exact List.mem_cons_self _ _)⟩
      have hside₁ : p.1 ≠ lockId ∨ p.2 ∉ rest := by
        rcases hside with h | h
        · exact Or.inl h
        · exact Or.inr (fun hq => h (List.mem_cons_of_mem _ hq))
      exact ih _ _ hfilter hside₁

/-! ### parseInputs and releaseOutputs run lemmas -/

theorem parseInputs_cons_ok {u : String} {rest : List String} {ops : List OutPointR}
    (h : parseInputs (u :: rest) = .ok ops) :
    ∃ s idx ops₁, (goSplitColon u).get? 1 = some s ∧ goAtoi s = some idx ∧
      parseInputs rest = .ok ops₁ ∧
      ops = (⟨(goSplitColon u).headD "", uint32cast idx⟩ : OutPointR) :: ops₁ := by
  unfold parseInputs at h
  split at h
  · exact absurd h (by simp)
  · rename_i s hs
    split at h
    · exact absurd h (by simp)
    · rename_i idx hidx
      cases hp : parseInputs rest with
      | error e => rw [hp] at h; exact absurd h (by simp [Except.map])
      | ok ops₁ =>
          rw [hp] at h
          simp only [Except.map] at h
          exact ⟨s, idx, ops₁, hs, hidx, rfl, by cases h; rfl⟩

theorem releaseOutputs_append_ok (env : Env) (lockId : Bytes) :
    ∀ (pre : List String) (ops : List OutPointR) (suffix : List String) (st : St),
      parseInputs pre = .ok ops →
      (∀ op ∈ ops, env.releaseOutput lockId op = none) →
      releaseOutputs env (pre ++ suffix) lockId st =
        releaseOutputs env suffix lockId
          ⟨remLocks st.locks lockId ops, st.trace ++ ops.map (Ev.evRelease lockId)⟩ := by
  intro pre
  induction pre with
  | nil =>
      intro ops suffix st hp hr
      have hops : ops = [] := by simpa [parseInputs] using hp.symm
      subst hops
      simp [remLocks]
  | cons u rest ih =>
      intro ops suffix st hp hr
      obtain ⟨s, idx, ops₁, hs, hidx, hp₁, hops⟩ := parseInputs_cons_ok hp
      subst hops
      have hrel := hr _ (List.mem_cons_self _ _)
      rw [List.cons_append]
      simp only [releaseOutputs, hs, hidx, hrel]
      rw [ih ops₁ suffix _ hp₁ (fun op hop => hr op (List.mem_cons_of_mem _ hop))]
      simp [remLocks]

theorem releaseOutputs_ok_run (env : Env) (lockId : Bytes) (utxos : List String)
    (ops : List OutPointR) (st : St)
    (hp : parseInputs utxos = .ok ops)
    (hr : ∀ op ∈ ops, env.releaseOutput lockId op = none) :
    releaseOutputs env utxos lockId st =
      (⟨remLocks st.locks lockId ops, st.trace ++ ops.map (Ev.evRelease lockId)⟩, .ok ()) := by
  have h := releaseOutputs_append_ok env lockId utxos ops [] st hp hr
  rw [List.append_nil] at h
  rw [h]
  rfl

/-- The claim C10: in `releaseOutputs`, a malformed (non-integer) output
index stops processing at that entry, leaves it and all later entries
locked, and returns success; a backend error on an individual release is
returned immediately, also leaving later entries unreleased. -/
theorem releaseOutputs_error_modes :
    (∀ (env : Env) (lockId : Bytes) (st : St) (pre : List String)
        (ops : List OutPointR) (bad : String) (rest : List String) (s : String),
      parseInputs pre = .ok ops →
      (∀ op ∈ ops, env.releaseOutput lockId op = none) →
      (goSplitColon bad).get? 1 = some s →
      goAtoi s = none →
      releaseOutputs env (pre ++ bad :: rest) lockId st =
        (⟨remLocks st.locks lockId ops, st.trace ++ ops.map (Ev.evRelease lockId)⟩, .ok ())) ∧
    (∀ (env : Env) (lockId : Bytes) (st : St) (pre : List String)
        (ops : List OutPointR) (u : String) (rest : List String) (op : OutPointR) (e : String),
      parseInputs pre = .ok ops →
      (∀ o ∈ ops, env.releaseOutput lockId o = none) →
      parseInputs [u] = .ok [op] →
      env.releaseOutput lockId op = some e →
      releaseOutputs env (pre ++ u :: rest) lockId st =
        (⟨remLocks st.locks lockId ops,
          (st.trace ++ ops.map (Ev.evRelease lockId)) ++ [Ev.evRelease lockId op]⟩,
         .error (.msg e))) := by
  constructor
  · intro env lockId st pre ops bad rest s hp hr hbad hatoi
    rw [releaseOutputs_append_ok env lockId pre ops (bad :: rest) st hp hr]
    simp only [releaseOutputs, hbad, hatoi]
  · intro env lockId st pre ops u rest op e hp hr hu herr
    rw [releaseOutputs_append_ok env lockId pre ops (u :: rest) st hp hr]
    obtain ⟨s, idx, ops₁, hs, hidx, _, hop⟩ := parseInputs_cons_ok hu
    injection hop with h1 h2
    simp only [releaseOutputs, hs, hidx]
    rw [← h1, herr]
    rfl

/-- Witness for C10: both error modes exercised on concrete inputs — a
malformed index "t9:x" after one good entry (success returned, later
entries never touched), and a backend refusal on "t2:1" (error returned,
later entries never touched). -/
theorem releaseOutputs_error_modes_witness :
    releaseOutputs baseEnv ["t1:0", "t9:x", "t7:3"] internalLockId
        ⟨[(internalLockId, ⟨"t1", 0⟩), (internalLockId, ⟨"t7", 3⟩)], []⟩ =
      (⟨remLocks [(internalLockId, ⟨"t1", 0⟩), (internalLockId, ⟨"t7", 3⟩)]
          internalLockId [⟨"t1", 0⟩],
        ([] : List Ev) ++ ([(⟨"t1", 0⟩ : OutPointR)]).map (Ev.evRelease internalLockId)⟩,
       .ok ()) ∧
    releaseOutputs relFailEnv ["t1:0", "t2:1", "t7:3"] internalLockId ⟨[], []⟩ =
      (⟨remLocks [] internalLockId [⟨"t1", 0⟩],
        (([] : List Ev) ++ ([(⟨"t1", 0⟩ : OutPointR)]).map (Ev.evRelease internalLockId)) ++
          [Ev.evRelease internalLockId ⟨"t2", 1⟩]⟩,
       .error (.msg "boom")) := by
  constructor
  · exact releaseOutputs_error_modes.1 baseEnv internalLockId
      ⟨[(internalLockId, ⟨"t1", 0⟩), (internalLockId, ⟨"t7", 3⟩)], []⟩
      ["t1:0"] [⟨"t1", 0⟩] "t9:x" ["t7:3"] "x"
      rfl (by decide) rfl rfl
  · exact releaseOutputs_error_modes.2 relFailEnv internalLockId ⟨[], []⟩
      ["t1:0"] [⟨"t1", 0⟩] "t2:1" ["t7:3"] ⟨"t2", 1⟩ "boom"
      rfl (by decide) rfl rfl

/-! ### C7: confirmation lookup -/

/-- The claim C7: `GetTxConfirmations` returns the sentinel `(-1, false)`
(with `-1 ≠ 0`) whenever the local history has no record of the txid, and
otherwise the backend's confirmation count together with a fee-bumpable
flag that is true exactly when the transaction has more than one output. -/
theorem getTxConfirmations_spec (env : Env) (txid : String) :
    ((∀ txs, env.getTransactions = .ok txs →
        txs.find? (fun tx => tx.txHash = txid) = none) →
      GetTxConfirmations env txid = (-1, false) ∧ (GetTxConfirmations env txid).1 ≠ 0) ∧
    (∀ txs tx, env.getTransactions = .ok txs →
        txs.find? (fun tx => tx.txHash = txid) = some tx →
      GetTxConfirmations env txid = (tx.numConfirmations, decide (1 < tx.outputDetails.length)) ∧
        ((GetTxConfirmations env txid).2 = true ↔ 1 < tx.outputDetails.length)) := by
  constructor
  · intro hnone
    cases hg : env.getTransactions with
    | error e =>
        constructor
        · simp [GetTxConfirmations, getTransactionGo, hg]
        · simp [GetTxConfirmations, getTransactionGo, hg]
    | ok txs =>
        have hfind := hnone txs hg
        constructor
        · simp [GetTxConfirmations, getTransactionGo, hg, hfind]
        · simp [GetTxConfirmations, getTransactionGo, hg, hfind]
  · intro txs tx hg hfind
    constructor
    · simp [GetTxConfirmations, getTransactionGo, hg, hfind]
    · simp [GetTxConfirmations, getTransactionGo, hg, hfind]

/-- Witness for C7: the unknown txid "absent" yields the sentinel
`(-1, false)`, while the recorded two-output peg-in yields `(5, true)`. -/
theorem getTxConfirmations_spec_witness :
    GetTxConfirmations baseEnv "absent" = (-1, false) ∧
    GetTxConfirmations baseEnv "ptx" = (5, true) := by
  constructor
  · exact ((getTxConfirmations_spec baseEnv "absent").1 (by
      intro txs h
      have hb : baseEnv.getTransactions = Except.ok [txPegin] := rfl
      rw [hb] at h
      injection h with h
      rw [← h]
      decide)).1
  · have h := ((getTxConfirmations_spec baseEnv "ptx").2 [txPegin] txPegin rfl (by decide)).1
    rw [h]
    decide

/-! ### releaseIgnoringError run lemma -/

theorem releaseIgnoringError_ok_run (env : Env) (lockId : Bytes) (utxos : List String)
    (ops : List OutPointR) (st : St)
    (hp : parseInputs utxos = .ok ops)
    (hr : ∀ op ∈ ops, env.releaseOutput lockId op = none) :
    releaseIgnoringError env utxos lockId st =
      (⟨remLocks st.locks lockId ops, st.trace ++ ops.map (Ev.evRelease lockId)⟩, none) := by
  unfold releaseIgnoringError
  rw [releaseOutputs_ok_run env lockId utxos ops st hp hr]

/-! ### C6: CPFP path of BumpPeginFee -/

/-- The claim C6: with an RBF-incapable backend, `BumpPeginFee` fails
with an error when the pending peg-in transaction has exactly one output
(making no bump call); otherwise it issues a CPFP bump against the change
output (the first output not paying the peg-in address) of the pending
transaction at the new fee rate and, on success, returns a `SentResult`
whose `TxId` is the unchanged pending peg-in transaction id. -/
theorem bumpPeginFee_cpfp_spec (env : Env) (cfg : PeginConfig) (feeRate : Nat)
    (st : St) (tx : LnTx)
    (hconn : env.connectErr = none)
    (hgt : getTransactionGo env cfg.peginTxId = .ok tx)
    (hrbf : env.canRBF = false) :
    (tx.outputDetails.length = 1 →
      BumpPeginFee env cfg feeRate st =
        (st, .error (.msg "peg-in transaction has no change output, not possible to CPFP"))) ∧
    (∀ o, tx.outputDetails.length ≠ 1 →
      tx.outputDetails.find? (fun q => q.address ≠ cfg.peginAddress) = some o →
      (env.bumpFee ⟨cfg.peginTxId, uint32cast o.outputIndex⟩ feeRate = none →
        BumpPeginFee env cfg feeRate st =
          (addEv st (.evBumpFee ⟨cfg.peginTxId, uint32cast o.outputIndex⟩ feeRate),
           .ok ⟨"", cfg.peginTxId, cfg.peginAmount⟩)) ∧
      (∀ e, env.bumpFee ⟨cfg.peginTxId, uint32cast o.outputIndex⟩ feeRate = some e →
        BumpPeginFee env cfg feeRate st =
          (addEv st (.evBumpFee ⟨cfg.peginTxId, uint32cast o.outputIndex⟩ feeRate),
           .error (.msg e)))) := by
  constructor
  · intro hlen
    simp only [BumpPeginFee, hconn, hgt, hrbf, doCPFP, hlen, if_pos]
    simp
  · intro o hlen hfind
    constructor
    · intro hbump
      simp only [BumpPeginFee, hconn, hgt, hrbf, doCPFP, if_neg hlen, hfind, hbump]
      simp
    · intro e hbump
      simp only [BumpPeginFee, hconn, hgt, hrbf, doCPFP, if_neg hlen, hfind, hbump]
      simp

/-- Witness for C6: a single-output pending peg-in is refused without a
bump call, while the two-output one gets a CPFP bump on its change output
at the new rate and keeps its transaction id "ptx". -/
theorem bumpPeginFee_cpfp_spec_witness :
    BumpPeginFee oneOutEnv ⟨"ptx", "pegaddr", 500⟩ 20 ⟨[], []⟩ =
      (⟨[], []⟩, .error (.msg "peg-in transaction has no change output, not possible to CPFP")) ∧
    BumpPeginFee cpfpEnv ⟨"ptx", "pegaddr", 500⟩ 20 ⟨[], []⟩ =
      (addEv ⟨[], []⟩ (.evBumpFee ⟨"ptx", uint32cast 1⟩ 20), .ok ⟨"", "ptx", 500⟩) := by
  constructor
  · exact (bumpPeginFee_cpfp_spec oneOutEnv ⟨"ptx", "pegaddr", 500⟩ 20 ⟨[], []⟩
      ⟨"ptx", 5, [⟨"pegaddr", 500, 0⟩], [], "raw"⟩ rfl rfl rfl).1 rfl
  · exact ((bumpPeginFee_cpfp_spec cpfpEnv ⟨"ptx", "pegaddr", 500⟩ 20 ⟨[], []⟩
      txPegin rfl rfl rfl).2 ⟨"chg", 100, 1⟩ (by decide) (by decide)).1 rfl

/-! ### C5: RBF path of BumpPeginFee -/

/-- The claim C5: with an RBF-capable backend, `BumpPeginFee` removes the
pending peg-in transaction from the backend's local view, releases both
lock tokens (internal and manual) on every former input of that
transaction, and then re-runs the full funding / finalize / broadcast
flow (`SendCoinsWithUtxos`) at the new fee rate, passing
subtract-fee-from-amount exactly when the removed transaction had no
change output (exactly one output). -/
theorem bumpPeginFee_rbf_spec (env : Env) (cfg : PeginConfig) (feeRate : Nat)
    (st : St) (tx : LnTx) (ops : List OutPointR)
    (hconn : env.connectErr = none)
    (hgt : getTransactionGo env cfg.peginTxId = .ok tx)
    (hrbf : env.canRBF = true)
    (hrem : env.removeTransaction cfg.peginTxId = .ok "Successfully removed transaction")
    (hp : parseInputs (tx.previousOutpoints.map (fun p => p.outpoint)) = .ok ops)
    (hri : ∀ op, env.releaseOutput internalLockId op = none)
    (hrm : ∀ op, env.releaseOutput myLockId op = none) :
    ∃ st₁,
      BumpPeginFee env cfg feeRate st =
        SendCoinsWithUtxos env (tx.previousOutpoints.map (fun p => p.outpoint))
          cfg.peginAddress cfg.peginAmount feeRate (tx.outputDetails.length == 1) st₁ ∧
      st₁.trace = ((st.trace ++ [Ev.evRemoveTx cfg.peginTxId]) ++
          ops.map (Ev.evRelease internalLockId)) ++ ops.map (Ev.evRelease myLockId) ∧
      (∀ op ∈ ops, (internalLockId, op) ∉ st₁.locks ∧ (myLockId, op) ∉ st₁.locks) ∧
      ((tx.outputDetails.length == 1) = true ↔ tx.outputDetails.length = 1) := by
  refine ⟨⟨remLocks (remLocks st.locks internalLockId ops) myLockId ops,
    ((st.trace ++ [Ev.evRemoveTx cfg.peginTxId]) ++
        ops.map (Ev.evRelease internalLockId)) ++ ops.map (Ev.evRelease myLockId)⟩,
    ?_, rfl, ?_, by simp⟩
  · have hrel1 : ∀ s, releaseIgnoringError env
        (tx.previousOutpoints.map (fun p => p.outpoint)) internalLockId s =
        (⟨remLocks s.locks internalLockId ops,
          s.trace ++ ops.map (Ev.evRelease internalLockId)⟩, none) :=
      fun s => releaseIgnoringError_ok_run env internalLockId _ ops s hp (fun op _ => hri op)
    have hrel2 : ∀ s, releaseIgnoringError env
        (tx.previousOutpoints.map (fun p => p.outpoint)) myLockId s =
        (⟨remLocks s.locks myLockId ops,
          s.trace ++ ops.map (Ev.evRelease myLockId)⟩, none) :=
      fun s => releaseIgnoringError_ok_run env myLockId _ ops s hp (fun op _ => hrm op)
    simp only [BumpPeginFee, hconn, hgt, hrbf, hrem, hrel1, hrel2]
    simp [addEv]
  · intro op hop
    constructor
    · intro hmem
      exact remLocks_not_mem internalLockId op ops _ hop
        (remLocks_subset myLockId ops _ _ hmem)
    · exact remLocks_not_mem myLockId op ops _ hop

/-- Witness for C5: bumping the concrete pending peg-in "ptx" (two
outputs, former input "t1:0") removes it, double-releases the input and
re-runs the send flow with subtract-fee-from-amount false. -/
theorem bumpPeginFee_rbf_spec_witness :
    ∃ st₁,
      BumpPeginFee baseEnv ⟨"ptx", "pegaddr", 500⟩ 20 ⟨[], []⟩ =
        SendCoinsWithUtxos baseEnv (txPegin.previousOutpoints.map (fun p => p.outpoint))
          "pegaddr" 500 20 (txPegin.outputDetails.length == 1) st₁ ∧
      st₁.trace = ((([] : List Ev) ++ [Ev.evRemoveTx "ptx"]) ++
          ([(⟨"t1", 0⟩ : OutPointR)]).map (Ev.evRelease internalLockId)) ++
          ([(⟨"t1", 0⟩ : OutPointR)]).map (Ev.evRelease myLockId) ∧
      (∀ op ∈ [(⟨"t1", 0⟩ : OutPointR)],
        (internalLockId, op) ∉ st₁.locks ∧ (myLockId, op) ∉ st₁.locks) ∧
      ((txPegin.outputDetails.length == 1) = true ↔ txPegin.outputDetails.length = 1) :=
  bumpPeginFee_rbf_spec baseEnv ⟨"ptx", "pegaddr", 500⟩ 20 ⟨[], []⟩ txPegin
    [⟨"t1", 0⟩] rfl rfl rfl rfl rfl (fun _ => rfl) (fun _ => rfl)

/-! ### C8: the timer's single-attempt peg-in claim policy -/

theorem timerTick_emptyId (env : TimerEnv) (cfg : TimerState)
    (h : cfg.peginTxId = "") : timerTick env cfg = (cfg, []) := by
  simp [timerTick, h]

theorem timerRun_emptyId (envs : List TimerEnv) :
    ∀ cfg : TimerState, cfg.peginTxId = "" → timerRun envs cfg = (cfg, []) := by
  induction envs with
  | nil => intro cfg h; rfl
  | cons e rest ih =>
      intro cfg h
      simp only [timerRun, timerTick_emptyId e cfg h, ih cfg h]
      rfl

/-- Counterexample for C8: with the peg-in at the 102-confirmation
threshold but a failing raw-transaction fetch, the tracked txid is
cleared with zero claim attempts, refuting "the id is cleared only after
... exactly one claim attempt has been made". -/
theorem timerTick_cleared_without_claim :
    (⟨"aaa", "cs"⟩ : TimerState).peginTxId ≠ "" ∧
    (timerTick rawFailTimerEnv ⟨"aaa", "cs"⟩).1.peginTxId = "" ∧
    (timerTick rawFailTimerEnv ⟨"aaa", "cs"⟩).2 = [] := by
  refine ⟨by decide, rfl, rfl⟩

/-- C8 as amended: the pending peg-in txid is cleared only once its
confirmation count has reached 102; at that point at most one claim
attempt is made in the tick — exactly one precisely when the raw
transaction fetch succeeds, and none when it fails — and over any run of
ticks at most one claim attempt is ever made, always for the tracked
txid, never a second one. -/
theorem timer_single_claim_spec :
    (∀ (env : TimerEnv) (cfg : TimerState), cfg.peginTxId ≠ "" →
      (timerTick env cfg).1.peginTxId = "" → 102 ≤ env.getTxConfs cfg.peginTxId) ∧
    (∀ (env : TimerEnv) (cfg : TimerState), cfg.peginTxId ≠ "" →
      102 ≤ env.getTxConfs cfg.peginTxId →
      (∀ raw, env.getRawTransaction cfg.peginTxId = .ok raw →
        (timerTick env cfg).2 = [cfg.peginTxId] ∧ (timerTick env cfg).1.peginTxId = "") ∧
      (∀ e, env.getRawTransaction cfg.peginTxId = .error e →
        (timerTick env cfg).2 = [] ∧ (timerTick env cfg).1.peginTxId = "")) ∧
    (∀ (envs : List TimerEnv) (cfg : TimerState),
      (timerRun envs cfg).2 = [] ∨ (timerRun envs cfg).2 = [cfg.peginTxId]) := by
  refine ⟨?_, ?_, ?_⟩
  · intro env cfg hne hclr
    by_contra hlt
    have : timerTick env cfg = (cfg, []) := by
      simp [timerTick, hne, hlt]
    rw [this] at hclr
    exact hne hclr
  · intro env cfg hne hconf
    constructor
    · intro raw hraw
      constructor <;> simp [timerTick, hne, hconf, hraw]
    · intro e hraw
      constructor <;> simp [timerTick, hne, hconf, hraw]
  · intro envs
    induction envs with
    | nil => intro cfg; exact Or.inl rfl
    | cons e rest ih =>
        intro cfg
        by_cases hne : cfg.peginTxId = ""
        · rw [timerRun]
          rw [timerTick_emptyId e cfg hne]
          rcases ih cfg with h | h
          · exact Or.inl (by simpa using h)
          · exact Or.inr (by simpa using h)
        · by_cases hconf : 102 ≤ e.getTxConfs cfg.peginTxId
          · cases hraw : e.getRawTransaction cfg.peginTxId with
            | ok raw =>
                rw [timerRun]
                have htick : timerTick e cfg =
                    ({ cfg with peginTxId := "" }, [cfg.peginTxId]) := by
                  simp [timerTick, hne, hconf, hraw]
                rw [htick]
                rw [timerRun_emptyId rest _ rfl]
                exact Or.inr rfl
            | error err =>
                rw [timerRun]
                have htick : timerTick e cfg =
                    ({ cfg with peginTxId := "" }, []) := by
                  simp [timerTick, hne, hconf, hraw]
                rw [htick]
                rw [timerRun_emptyId rest _ rfl]
                exact Or.inl rfl
          · rw [timerRun]
            have htick : timerTick e cfg = (cfg, []) := by
              simp [timerTick, hne, hconf]
            rw [htick]
            rcases ih cfg with h | h
            · exact Or.inl (by simpa using h)
            · exact Or.inr (by simpa using h)

/-- Witness for C8 (amended): at the threshold with a working fetch the
single claim is attempted and the id cleared; running two further ticks
never produces a second attempt. -/
theorem timer_single_claim_spec_witness :
    ((timerTick okTimerEnv ⟨"aaa", "cs"⟩).2 = ["aaa"] ∧
      (timerTick okTimerEnv ⟨"aaa", "cs"⟩).1.peginTxId = "") ∧
    102 ≤ okTimerEnv.getTxConfs "aaa" ∧
    ((timerRun [okTimerEnv, okTimerEnv, okTimerEnv] ⟨"aaa", "cs"⟩).2 = [] ∨
      (timerRun [okTimerEnv, okTimerEnv, okTimerEnv] ⟨"aaa", "cs"⟩).2 = ["aaa"]) :=
  ⟨(timer_single_claim_spec.2.1 okTimerEnv ⟨"aaa", "cs"⟩ (by decide) (by decide)).1
      "rawtx" rfl,
   by decide,
   timer_single_claim_spec.2.2 [okTimerEnv, okTimerEnv, okTimerEnv] ⟨"aaa", "cs"⟩⟩

/-! ### C9: the bump handler and fee-rate monotonicity -/

/-- Counterexample for C9: a bump request of 5 sat/vbyte against a last
recorded rate of 10 is NOT rejected by the handler — the BumpFee call is
issued (and succeeds), so no caller-side monotonicity check runs before
the escalation controller. -/
theorem bumpfeeHandler_no_monotonicity_check :
    goParseUint64 "5" = some 5 ∧
    (5 : Nat) < (⟨"ptx", 500, 10⟩ : WebConfig).peginFeeRate ∧
    (bumpfeeHandler bumpWebEnv ⟨"ptx", 500, 10⟩ "5").2.1 =
      [(⟨"ptx", 1, 5⟩ : BumpCall)] ∧
    (bumpfeeHandler bumpWebEnv ⟨"ptx", 500, 10⟩ "5").2.2 = .redirectOk := by
  refine ⟨rfl, by decide, rfl, rfl⟩

/-- C9 as amended: the bump handler performs no fee-rate monotonicity
check of its own — any rate that parses (lower or not than the last
recorded one) reaches `BumpFee` once a pending peg-in with a change
output exists — and after every successful bump the handler persists the
fee rate used (`PeginFeeRate := fee`), from which the UI derives the
form minimum `last rate + 1` for the next bump. -/
theorem bumpfeeHandler_persists_rate (env : WebEnv) (cfg : WebConfig)
    (feeRateForm : String) (fee : Nat) (tx : LnTx) (i : Nat) (o : OutputDetail)
    (hparse : goParseUint64 feeRateForm = some fee)
    (hpend : cfg.peginTxId ≠ "")
    (hget : env.lnGetTransaction cfg.peginTxId = .ok tx)
    (hidx : tx.outputDetails.findIdx? (fun q => q.amount ≠ cfg.peginAmount) = some i)
    (hgets : tx.outputDetails.get? (i % 2 ^ 32) = some o)
    (hchg : o.amount ≠ cfg.peginAmount)
    (hbump : env.lnBumpFee cfg.peginTxId (i % 2 ^ 32) fee = none) :
    bumpfeeHandler env cfg feeRateForm =
      ({ cfg with peginFeeRate := fee % 2 ^ 32 },
       [⟨cfg.peginTxId, i % 2 ^ 32, fee⟩], .redirectOk) := by
  simp only [bumpfeeHandler, hparse, if_neg hpend, hget, hidx, hgets, if_neg hchg, hbump]

/-- Witness for C9 (amended): the 5 sat/vbyte bump against the two-output
peg-in goes through and persists rate 5 in the config. -/
theorem bumpfeeHandler_persists_rate_witness :
    bumpfeeHandler bumpWebEnv ⟨"ptx", 500, 10⟩ "5" =
      ({ (⟨"ptx", 500, 10⟩ : WebConfig) with peginFeeRate := 5 % 2 ^ 32 },
       [⟨"ptx", 1 % 2 ^ 32, 5⟩], .redirectOk) :=
  bumpfeeHandler_persists_rate bumpWebEnv ⟨"ptx", 500, 10⟩ "5" 5 txPegin 1
    ⟨"chg", 100, 1⟩ rfl (by decide) rfl (by decide) (by decide) (by decide) rfl

/-! ### C3 and C4: sweep-all mode -/

theorem spendAllMatch_iff (utxo : LndUtxo) (u : String) (s : String) (idx : Int)
    (hs : (goSplitColon u).get? 1 = some s) (hidx : goAtoi s = some idx) :
    spendAllMatch utxo u = true ↔
      (utxo.txidStr = (goSplitColon u).headD "" ∧ utxo.outputIndex = uint32cast idx) := by
  unfold spendAllMatch
  rw [hs]
  simp [hidx]

theorem spendAllInner_ok (env : Env) (utxo : LndUtxo) :
    ∀ (us : List String) (st : St) (acc : List TxInR) (st1 : St) (acc1 : List TxInR),
      spendAllInner env utxo us st acc = (st1, .ok acc1) →
      ∃ d, st1.trace = st.trace ++ d ∧
        (∀ ev ∈ d, ∃ op, ev = Ev.evLease myLockId op 10) ∧
        (∀ u ∈ us, spendAllMatch utxo u = true →
          Ev.evLease myLockId ⟨utxo.txidStr, utxo.outputIndex⟩ 10 ∈ d) := by
  intro us
  induction us with
  | nil =>
      intro st acc st1 acc1 h
      simp only [spendAllInner] at h
      injection h with h1 h2
      subst h1
      exact ⟨[], by simp, by simp, by simp⟩
  | cons u rest ih =>
      intro st acc st1 acc1 h
      simp only [spendAllInner] at h
      split at h
      · exact absurd h (by simp)
      · rename_i s hs
        split at h
        · exact absurd h (by simp)
        · rename_i idx hidx
          split at h
          · rename_i hcond
            split at h
            · exact absurd h (by simp)
            · rename_i hlen
              split at h
              · exact absurd h (by simp)
              · rename_i hlease
                obtain ⟨d, hd, hall, hmem⟩ := ih _ _ _ _ h
                refine ⟨Ev.evLease myLockId ⟨utxo.txidStr, utxo.outputIndex⟩ 10 :: d,
                  ?_, ?_, ?_⟩
                · rw [hd]; simp
                · intro ev hev
                  rcases List.mem_cons.mp hev with hev | hev
                  · exact ⟨⟨utxo.txidStr, utxo.outputIndex⟩, hev⟩
                  · exact hall ev hev
                · intro u₁ hu₁ hm
                  rcases List.mem_cons.mp hu₁ with hh | hh
                  · exact List.mem_cons_self _ _
                  · exact List.mem_cons_of_mem _ (hmem u₁ hh hm)
          · rename_i hcond
            obtain ⟨d, hd, hall, hmem⟩ := ih _ _ _ _ h
            refine ⟨d, hd, hall, ?_⟩
            intro u₁ hu₁ hm
            rcases List.mem_cons.mp hu₁ with hh | hh
            · rw [hh] at hm
              exact absurd ((spendAllMatch_iff utxo u s idx hs hidx).mp hm) hcond
            · exact hmem u₁ hh hm

theorem spendAllOuter_ok (env : Env) (us : List String) :
    ∀ (unspent : List LndUtxo) (st : St) (acc : List TxInR) (st1 : St) (acc1 : List TxInR),
      spendAllOuter env us unspent st acc = (st1, .ok acc1) →
      ∃ d, st1.trace = st.trace ++ d ∧
        (∀ ev ∈ d, ∃ op, ev = Ev.evLease myLockId op 10) ∧
        (∀ utxo ∈ unspent, ∀ u ∈ us, spendAllMatch utxo u = true →
          Ev.evLease myLockId ⟨utxo.txidStr, utxo.outputIndex⟩ 10 ∈ d) := by
  intro unspent
  induction unspent with
  | nil =>
      intro st acc st1 acc1 h
      simp only [spendAllOuter] at h
      injection h with h1 h2
      subst h1
      exact ⟨[], by simp, by simp, by simp⟩
  | cons utxo more ih =>
      intro st acc st1 acc1 h
      simp only [spendAllOuter] at h
      split at h
      · exact absurd h (by simp)
      · rename_i stm accm heq
        obtain ⟨d₁, hd₁, hall₁, hmem₁⟩ := spendAllInner_ok env utxo us _ _ _ _ heq
        obtain ⟨d₂, hd₂, hall₂, hmem₂⟩ := ih _ _ _ _ h
        refine ⟨d₁ ++ d₂, ?_, ?_, ?_⟩
        · rw [hd₂, hd₁]; simp
        · intro ev hev
          rcases List.mem_append.mp hev with hh | hh
          · exact hall₁ ev hh
          · exact hall₂ ev hh
        · intro utxo₁ hut u hu hm
          rcases List.mem_cons.mp hut with hh | hh
          · subst hh
            exact List.mem_append_left _ (hmem₁ u hu hm)
          · exact List.mem_append_right _ (hmem₂ utxo₁ hh u hu hm)

/-- The claim C3: on every successful sweep-all funding call,
`fundPsbtSpendAll` builds an unsigned version-2 transaction whose output
list is exactly one output of 1 satoshi paying the destination address's
script, at index 0, declares index 0 to the backend coin-selector as the
existing change output, and every caller-specified outpoint matching the
wallet's unspent set was leased under the manual lock token with a
10-second expiration before the funding request (all lease events precede
the single trailing coin-select funding event in the trace). -/
theorem fundPsbtSpendAll_template_spec (env : Env) (utxoStrings : List String)
    (address : String) (feeRate : Nat) (st st2 : St) (psbt : Bytes)
    (unspent : List LndUtxo)
    (hu : env.listUnspent = .ok unspent)
    (hok : fundPsbtSpendAllGo env utxoStrings address feeRate st = (st2, .ok psbt)) :
    ∃ tok pkScript txIns psbtB leases,
      env.decodeAddress address (if env.chain = "mainnet" then "mainnet" else "testnet3") =
        .ok tok ∧
      env.payToAddrScript tok = .ok pkScript ∧
      env.psbtFromUnsignedTx ⟨2, txIns, [⟨pkScript, 1⟩]⟩ = .ok psbtB ∧
      st2.trace = (st.trace ++ leases) ++ [Ev.evFundCoinSelect psbtB 0 feeRate] ∧
      (∀ ev ∈ leases, ∃ op, ev = Ev.evLease myLockId op 10) ∧
      (∀ utxo ∈ unspent, ∀ u ∈ utxoStrings, spendAllMatch utxo u = true →
        Ev.evLease myLockId ⟨utxo.txidStr, utxo.outputIndex⟩ 10 ∈ leases) := by
  simp only [fundPsbtSpendAllGo, hu] at hok
  split at hok
  · exact absurd hok (by simp)
  · rename_i st1 txIns houter
    split at hok
    · exact absurd hok (by simp)
    · rename_i tok hdec
      split at hok
      · exact absurd hok (by simp)
      · rename_i pkScript hpay
        split at hok
        · exact absurd hok (by simp)
        · rename_i psbtB hpsbt
          split at hok
          · rename_i e hfund
            split at hok <;> exact absurd hok (by simp)
          · rename_i funded hfund
            obtain ⟨d, hd, hall, hmem⟩ := spendAllOuter_ok env utxoStrings unspent st [] _ _ houter
            injection hok with h1 h2
            subst h1
            exact ⟨tok, pkScript, txIns, psbtB, d, hdec, hpay, hpsbt,
              by rw [addEv_trace, hd], hall, hmem⟩

/-- Witness for C3: the concrete sweep of "t1:0" in the base environment
funds successfully, so the template and lease guarantees apply to it. -/
theorem fundPsbtSpendAll_template_spec_witness :
    ∃ tok pkScript txIns psbtB leases,
      baseEnv.decodeAddress "dest"
          (if baseEnv.chain = "mainnet" then "mainnet" else "testnet3") = .ok tok ∧
      baseEnv.payToAddrScript tok = .ok pkScript ∧
      baseEnv.psbtFromUnsignedTx ⟨2, txIns, [⟨pkScript, 1⟩]⟩ = .ok psbtB ∧
      (⟨[(myLockId, ⟨"t1", 0⟩)],
        [Ev.evLease myLockId ⟨"t1", 0⟩ 10, Ev.evFundCoinSelect [0] 0 5]⟩ : St).trace =
        (([] : List Ev) ++ leases) ++ [Ev.evFundCoinSelect psbtB 0 5] ∧
      (∀ ev ∈ leases, ∃ op, ev = Ev.evLease myLockId op 10) ∧
      (∀ utxo ∈ [(⟨"addr1", 1000, 3, List.replicate 32 5, "t1", 0⟩ : LndUtxo)],
        ∀ u ∈ ["t1:0"], spendAllMatch utxo u = true →
          Ev.evLease myLockId ⟨utxo.txidStr, utxo.outputIndex⟩ 10 ∈ leases) :=
  fundPsbtSpendAll_template_spec baseEnv ["t1:0"] "dest" 5 ⟨[], []⟩
    ⟨[(myLockId, ⟨"t1", 0⟩)],
      [Ev.evLease myLockId ⟨"t1", 0⟩ 10, Ev.evFundCoinSelect [0] 0 5]⟩
    [9, 0] [⟨"addr1", 1000, 3, List.replicate 32 5, "t1", 0⟩] rfl rfl

/-- Counterexample for C4: two failure paths of sweep-all mode that do
NOT release the explicit-lock reservations made so far — an
address-decode failure after "t1:0" was leased leaves it locked, and a
lease failure on a second outpoint leaves the first lease locked. -/
theorem fundPsbtSpendAll_leaks_locks :
    fundPsbtSpendAllGo decodeFailEnv ["t1:0"] "addr" 5 ⟨[], []⟩ =
      (⟨[(myLockId, ⟨"t1", 0⟩)], [Ev.evLease myLockId ⟨"t1", 0⟩ 10]⟩,
       .error (.msg "checksum mismatch")) ∧
    fundPsbtSpendAllGo leaseFailEnv ["t1:0", "t2:0"] "addr" 5 ⟨[], []⟩ =
      (⟨[(myLockId, ⟨"t1", 0⟩)],
        [Ev.evLease myLockId ⟨"t1", 0⟩ 10, Ev.evLease myLockId ⟨"t2", 0⟩ 10]⟩,
       .error (.msg "already leased")) := by
  constructor
  · rfl
  · rfl

/-- C4 as amended: of the failure paths inside sweep-all mode, only the
funding-rejection path (the backend refusing the coin-select funding
request) releases the explicit-lock reservations made during the call;
a lease-output failure or an address-decode failure returns its error
with the reservations made so far still held. -/
theorem fundPsbtSpendAll_releases_on_funding_rejection (env : Env)
    (utxoStrings : List String) (address : String) (feeRate : Nat) (st st1 : St)
    (unspent : List LndUtxo) (txIns : List TxInR) (tok : Nat) (pk pb : Bytes)
    (e : String) (ops : List OutPointR)
    (hu : env.listUnspent = .ok unspent)
    (houter : spendAllOuter env utxoStrings unspent st [] = (st1, .ok txIns))
    (hdec : env.decodeAddress address
      (if env.chain = "mainnet" then "mainnet" else "testnet3") = .ok tok)
    (hpay : env.payToAddrScript tok = .ok pk)
    (hpsbt : env.psbtFromUnsignedTx ⟨2, txIns, [⟨pk, 1⟩]⟩ = .ok pb)
    (hfund : env.fundPsbtCoinSelect pb 0 feeRate = .error e)
    (hp : parseInputs utxoStrings = .ok ops)
    (hrm : ∀ op, env.releaseOutput myLockId op = none) :
    fundPsbtSpendAllGo env utxoStrings address feeRate st =
      (⟨remLocks st1.locks myLockId ops,
        (st1.trace ++ [Ev.evFundCoinSelect pb 0 feeRate]) ++ ops.map (Ev.evRelease myLockId)⟩,
       .error (.msg e)) ∧
    (∀ op ∈ ops, (myLockId, op) ∉ remLocks st1.locks myLockId ops) := by
  constructor
  · have hrel : ∀ s, releaseIgnoringError env utxoStrings myLockId s =
        (⟨remLocks s.locks myLockId ops, s.trace ++ ops.map (Ev.evRelease myLockId)⟩, none) :=
      fun s => releaseIgnoringError_ok_run env myLockId _ ops s hp (fun op _ => hrm op)
    simp only [fundPsbtSpendAllGo, hu, houter, hdec, hpay, hpsbt, hfund, hrel]
    rfl
  · intro op hop
    exact remLocks_not_mem myLockId op ops _ hop

/-- Witness for C4 (amended): the concrete coin-select rejection on the
swept "t1:0" releases the manual lease taken during the call. -/
theorem fundPsbtSpendAll_releases_on_funding_rejection_witness :
    fundPsbtSpendAllGo fundFailEnv ["t1:0"] "dest" 5 ⟨[], []⟩ =
      (⟨remLocks [(myLockId, ⟨"t1", 0⟩)] myLockId [⟨"t1", 0⟩],
        (([Ev.evLease myLockId ⟨"t1", 0⟩ 10] : List Ev) ++
            [Ev.evFundCoinSelect [0] 0 5]) ++
          ([(⟨"t1", 0⟩ : OutPointR)]).map (Ev.evRelease myLockId)⟩,
       .error (.msg "insufficient funds")) ∧
    (∀ op ∈ [(⟨"t1", 0⟩ : OutPointR)],
      (myLockId, op) ∉ remLocks [(myLockId, ⟨"t1", 0⟩)] myLockId [⟨"t1", 0⟩]) :=
  fundPsbtSpendAll_releases_on_funding_rejection fundFailEnv ["t1:0"] "dest" 5
    ⟨[], []⟩ ⟨[(myLockId, ⟨"t1", 0⟩)], [Ev.evLease myLockId ⟨"t1", 0⟩ 10]⟩
    [⟨"addr1", 1000, 3, List.replicate 32 5, "t1", 0⟩] [⟨List.replicate 32 5, 0⟩]
    42 [0x51] [0] "insufficient funds" [⟨"t1", 0⟩]
    rfl rfl rfl rfl rfl rfl rfl (fun _ => rfl)

/-! ### Publish-event preservation lemmas for C1 -/

theorem releaseOutputs_pubEvents (env : Env) :
    ∀ (utxos : List String) (lockId : Bytes) (st : St),
      pubEvents ((releaseOutputs env utxos lockId st).1).trace = pubEvents st.trace := by
  intro utxos
  induction utxos with
  | nil => intro lockId st; rfl
  | cons u rest ih =>
      intro lockId st
      simp only [releaseOutputs]
      split
      · rfl
      · split
        · rfl
        · split
          · simp [pubEvents]
          · rw [ih]
            simp [pubEvents]

theorem releaseIgnoringError_pubEvents (env : Env) (utxos : List String)
    (lockId : Bytes) (st : St) :
    pubEvents ((releaseIgnoringError env utxos lockId st).1).trace = pubEvents st.trace := by
  unfold releaseIgnoringError
  split
  · rename_i st1 heq
    have h2 := releaseOutputs_pubEvents env utxos lockId st
    rw [heq] at h2
    exact h2
  · rename_i st1 r hno hne
    have h2 := releaseOutputs_pubEvents env utxos lockId st
    rw [hne] at h2
    exact h2

theorem fundPsbtGo_pubEvents (env : Env) (utxos : List String)
    (outputs : List (String × Nat)) (feeRate : Nat) (st : St) :
    pubEvents ((fundPsbtGo env utxos outputs feeRate st).1).trace = pubEvents st.trace := by
  simp only [fundPsbtGo]
  split
  · rfl
  · split <;> simp [pubEvents]

theorem haircutLoop_pubEvents (env : Env) (utxos : List String) (addr : String)
    (amount feeSats : Int) (feeRate : Nat) :
    ∀ (hs : List Int) (outputs : List (String × Nat)) (st : St),
      pubEvents ((haircutLoop env utxos addr amount feeSats feeRate hs outputs st).1).trace =
        pubEvents st.trace := by
  intro hs
  induction hs with
  | nil => intro outputs st; rfl
  | cons h rest ih =>
      intro outputs st
      simp only [haircutLoop]
      split
      · rename_i st1 e heq
        have := releaseOutputs_pubEvents env utxos internalLockId st
        rw [heq] at this
        exact this
      · rename_i st1 r heq
        have hrel := releaseOutputs_pubEvents env utxos internalLockId st
        rw [heq] at hrel
        split
        · rename_i st2 psbt heq2
          have hfund := fundPsbtGo_pubEvents env utxos
            (mapSet outputs addr (uint64cast (if amount - feeSats - h < 0 then 0
              else amount - feeSats - h))) feeRate st1
          rw [heq2] at hfund
          rw [hfund, hrel]
        · rename_i st2 e heq2
          have hfund := fundPsbtGo_pubEvents env utxos
            (mapSet outputs addr (uint64cast (if amount - feeSats - h < 0 then 0
              else amount - feeSats - h))) feeRate st1
          rw [heq2] at hfund
          split
          · rw [hfund, hrel]
          · rw [ih, hfund, hrel]

theorem spendAllInner_pubEvents (env : Env) (utxo : LndUtxo) :
    ∀ (us : List String) (st : St) (acc : List TxInR),
      pubEvents ((spendAllInner env utxo us st acc).1).trace = pubEvents st.trace := by
  intro us
  induction us with
  | nil => intro st acc; rfl
  | cons u rest ih =>
      intro st acc
      simp only [spendAllInner]
      split
      · rfl
      · split
        · rfl
        · split
          · split
            · rfl
            · split
              · simp [pubEvents]
              · rw [ih]
                simp [pubEvents]
          · exact ih st acc

theorem spendAllOuter_pubEvents (env : Env) (us : List String) :
    ∀ (unspent : List LndUtxo) (st : St) (acc : List TxInR),
      pubEvents ((spendAllOuter env us unspent st acc).1).trace = pubEvents st.trace := by
  intro unspent
  induction unspent with
  | nil => intro st acc; rfl
  | cons utxo more ih =>
      intro st acc
      simp only [spendAllOuter]
      split
      · rename_i st1 e heq
        have := spendAllInner_pubEvents env utxo us st acc
        rw [heq] at this
        exact this
      · rename_i st1 acc1 heq
        have := spendAllInner_pubEvents env utxo us st acc
        rw [heq] at this
        rw [ih, this]

theorem fundPsbtSpendAll_pubEvents (env : Env) (utxoStrings : List String)
    (address : String) (feeRate : Nat) (st : St) :
    pubEvents ((fundPsbtSpendAllGo env utxoStrings address feeRate st).1).trace =
      pubEvents st.trace := by
  simp only [fundPsbtSpendAllGo]
  split
  · rfl
  · rename_i unspent hul
    split
    · rename_i st1 e heq
      have h2 := spendAllOuter_pubEvents env utxoStrings unspent st []
      rw [heq] at h2
      exact h2
    · rename_i st1 txIns heq
      have houter : pubEvents st1.trace = pubEvents st.trace := by
        have h2 := spendAllOuter_pubEvents env utxoStrings unspent st []
        rw [heq] at h2
        exact h2
      split
      · exact houter
      · rename_i tok hdec
        split
        · exact houter
        · rename_i pk hpay
          split
          · exact houter
          · rename_i pb hpsbt
            split
            · rename_i e hfund
              split
              · rename_i st3 p heq3
                have h3 := releaseIgnoringError_pubEvents env utxoStrings myLockId
                  (addEv st1 (Ev.evFundCoinSelect pb 0 feeRate))
                rw [heq3] at h3
                refine Eq.trans h3 ?_
                simp only [addEv_trace, pubEvents_append]
                simpa [pubEvents] using houter
              · rename_i st3 heq3
                have h3 := releaseIgnoringError_pubEvents env utxoStrings myLockId
                  (addEv st1 (Ev.evFundCoinSelect pb 0 feeRate))
                rw [heq3] at h3
                refine Eq.trans h3 ?_
                simp only [addEv_trace, pubEvents_append]
                simpa [pubEvents] using houter
            · rename_i funded hfund
              show pubEvents (addEv st1 (Ev.evFundCoinSelect pb 0 feeRate)).trace =
                pubEvents st.trace
              simp only [addEv_trace, pubEvents_append]
              simpa [pubEvents] using houter

/-! ### C1: the transaction id of a successful send -/

theorem finishSend_ok (env : Env) (utxos : List String) (lockId : Bytes)
    (psbt : Bytes) (amount : Int) (subtract : Bool) (st st2 : St) (res : SentResult)
    (h : finishSend env utxos lockId psbt amount subtract st = (st2, .ok res)) :
    ∃ raw msgTx,
      env.finalizePsbt psbt = .ok raw ∧
      env.deserializeTx raw = .ok msgTx ∧
      res.txId = env.hashOfTx msgTx ∧
      res.rawHex = hexEncode raw ∧
      pubEvents st2.trace = pubEvents st.trace ++ [raw] := by
  simp only [finishSend] at h
  split at h
  · rename_i e heq
    split at h <;> exact absurd h (by simp)
  · rename_i raw heq
    split at h
    · exact absurd h (by simp)
    · rename_i msgTx heq2
      split at h
      · rename_i e heq3
        split at h <;> exact absurd h (by simp)
      · rename_i heq3
        refine ⟨raw, msgTx, heq, heq2, ?_⟩
        split at h
        · split at h
          · exact absurd h (by simp)
          · rename_i o rest heq4
            injection h with h1 h2
            injection h2 with h2
            subst h1
            rw [← h2]
            exact ⟨rfl, rfl, by simp [pubEvents]⟩
        · injection h with h1 h2
          injection h2 with h2
          subst h1
          rw [← h2]
          exact ⟨rfl, rfl, by simp [pubEvents]⟩

/-- The claim C1: for every successful call to `SendCoinsWithUtxos`, the
`TxId` of the returned `SentResult` is the hash of the transaction
obtained by locally deserializing the exact raw bytes handed to
`PublishTransaction` (the unique publish of the call), and `RawHex` is
the hex encoding of those same bytes; the id is never taken from a
backend-reported value. -/
theorem sendCoins_txid_from_published_bytes (env : Env) (utxos : List String)
    (addr : String) (amount : Int) (feeRate : Nat) (subtract : Bool)
    (st st2 : St) (res : SentResult)
    (h : SendCoinsWithUtxos env utxos addr amount feeRate subtract st = (st2, .ok res)) :
    ∃ raw msgTx,
      env.deserializeTx raw = .ok msgTx ∧
      res.txId = env.hashOfTx msgTx ∧
      res.rawHex = hexEncode raw ∧
      pubEvents st2.trace = pubEvents st.trace ++ [raw] := by
  simp only [SendCoinsWithUtxos] at h
  split at h
  · exact absurd h (by simp)
  · split at h
    · exact absurd h (by simp)
    · split at h
      · -- sweep-all branch
        split at h
        · exact absurd h (by simp)
        · rename_i st1 psbt heq
          obtain ⟨raw, msgTx, _, hdes, htid, hhex, hpub⟩ :=
            finishSend_ok env utxos myLockId psbt amount subtract st1 st2 res h
          have hpre := fundPsbtSpendAll_pubEvents env utxos addr feeRate st
          rw [heq] at hpre
          exact ⟨raw, msgTx, hdes, htid, hhex, by rw [hpub, hpre]⟩
      · split at h
        · exact absurd h (by simp)
        · rename_i st1 psbt heq
          have hpre := fundPsbtGo_pubEvents env utxos
            (if subtract = true then [] else [(addr, uint64cast amount)]) feeRate st
          rw [heq] at hpre
          split at h
          · split at h
            · exact absurd h (by simp)
            · rename_i feeSats heqf
              split at h
              · exact absurd h (by simp)
              · rename_i st3 e heql
                split at h <;> exact absurd h (by simp)
              · rename_i st3 psbt2 heql
                obtain ⟨raw, msgTx, _, hdes, htid, hhex, hpub⟩ :=
                  finishSend_ok env utxos internalLockId psbt2 amount subtract st3 st2 res h
                have hloop := haircutLoop_pubEvents env utxos addr amount feeSats
                  feeRate haircutList [] st1
                rw [heql] at hloop
                exact ⟨raw, msgTx, hdes, htid, hhex, by rw [hpub, hloop, hpre]⟩
          · obtain ⟨raw, msgTx, _, hdes, htid, hhex, hpub⟩ :=
              finishSend_ok env utxos internalLockId psbt amount subtract st1 st2 res h
            exact ⟨raw, msgTx, hdes, htid, hhex, by rw [hpub, hpre]⟩

/-- Witness for C1: the concrete sweep-all send in the base environment
succeeds and its result id is the hash of the deserialized published
bytes. -/
theorem sendCoins_txid_from_published_bytes_witness :
    ∃ raw msgTx,
      baseEnv.deserializeTx raw = .ok msgTx ∧
      (⟨"630900", "hash2", 77⟩ : SentResult).txId = baseEnv.hashOfTx msgTx ∧
      (⟨"630900", "hash2", 77⟩ : SentResult).rawHex = hexEncode raw ∧
      pubEvents (⟨[(myLockId, ⟨"t1", 0⟩)],
        [Ev.evLease myLockId ⟨"t1", 0⟩ 10, Ev.evFundCoinSelect [0] 0 5,
         Ev.evFinalize [9, 0], Ev.evPublish [99, 9, 0]]⟩ : St).trace =
        pubEvents (⟨[], []⟩ : St).trace ++ [raw] :=
  sendCoins_txid_from_published_bytes baseEnv ["t1:0"] "dest" 500 5 true
    ⟨[], []⟩
    ⟨[(myLockId, ⟨"t1", 0⟩)],
      [Ev.evLease myLockId ⟨"t1", 0⟩ 10, Ev.evFundCoinSelect [0] 0 5,
       Ev.evFinalize [9, 0], Ev.evPublish [99, 9, 0]]⟩
    ⟨"630900", "hash2", 77⟩ rfl

/-! ### C2: the fee-subtraction retry loop -/

theorem mapSet_shape (outputs : List (String × Nat)) (addr : String) (v : Nat)
    (hshape : outputs = [] ∨ ∃ w, outputs = [(addr, w)]) :
    mapSet outputs addr v = [(addr, v)] := by
  rcases hshape with rfl | ⟨w, rfl⟩
  · simp [mapSet]
  · simp [mapSet]

theorem fundEvents_releases (lockId : Bytes) (ops : List OutPointR) :
    fundEvents (ops.map (Ev.evRelease lockId)) = [] := by
  induction ops with
  | nil => rfl
  | cons op rest ih =>
      simp only [List.map_cons, fundEvents, List.filter_cons_of_neg]
      exact ih

theorem fundEvents_fund_singleton (a : List OutPointR) (b : List (String × Nat)) (c : Nat) :
    fundEvents [Ev.evFund a b c] = [Ev.evFund a b c] := rfl

theorem haircutLoop_exhausts (env : Env) (utxos : List String) (addr : String)
    (amount feeSats : Int) (feeRate : Nat) (ops : List OutPointR)
    (hp : parseInputs utxos = .ok ops)
    (hri : ∀ op, env.releaseOutput internalLockId op = none)
    (hfail : ∀ outputs, outputs ≠ [] → ∃ m, env.fundPsbt ops outputs feeRate = .error m) :
    ∀ (hs : List Int) (outputs : List (String × Nat)) (st : St),
      hs ≠ [] →
      (outputs = [] ∨ ∃ w, outputs = [(addr, w)]) →
      ∃ st1 e,
        haircutLoop env utxos addr amount feeSats feeRate hs outputs st =
          (st1, .exhausted e) ∧
        fundEvents st1.trace = fundEvents st.trace ++
          hs.map (fun h => Ev.evFund ops [(addr, clampAmt amount feeSats h)] feeRate) := by
  intro hs
  induction hs with
  | nil => intro outputs st hne _; exact absurd rfl hne
  | cons h rest ih =>
      intro outputs st _ hshape
      have hrel := releaseOutputs_ok_run env internalLockId utxos ops st hp
        (fun op _ => hri op)
      obtain ⟨m, hm⟩ := hfail [(addr, clampAmt amount feeSats h)] (by simp)
      have hms := mapSet_shape outputs addr (clampAmt amount feeSats h) hshape
      have hc : uint64cast (if amount - feeSats - h < 0 then 0 else amount - feeSats - h) =
          clampAmt amount feeSats h := rfl
      simp only [haircutLoop, hrel]
      rw [hc, hms]
      simp only [fundPsbtGo, hp]
      rw [hm]
      cases rest with
      | nil =>
          refine ⟨_, .msg m, rfl, ?_⟩
          simp only [addEv_trace, fundEvents_append, fundEvents_releases,
            fundEvents_fund_singleton, List.append_nil, List.map_cons, List.map_nil]
          try simp [List.append_assoc]
      | cons h₂ hs₂ =>
          obtain ⟨st1, e, hloop, hfe⟩ := ih
            [(addr, clampAmt amount feeSats h)]
            (addEv ⟨remLocks st.locks internalLockId ops,
              st.trace ++ ops.map (Ev.evRelease internalLockId)⟩
              (Ev.evFund ops [(addr, clampAmt amount feeSats h)] feeRate))
            (by simp) (Or.inr ⟨_, rfl⟩)
          refine ⟨st1, e, hloop, ?_⟩
          rw [hfe]
          simp only [addEv_trace, fundEvents_append, fundEvents_releases,
            fundEvents_fund_singleton, List.append_nil, List.map_cons]
          simp [List.append_assoc]

/-- The claim C2: the haircut sequence of the fee-subtraction retry loop
starts at 0, strictly increases by 5 per retry, never exceeds 2000, and
the loop terminates after at most 401 attempts; when no attempt in the
whole range funds (subtract-fee mode on a backend without native
support), the error is surfaced to the caller and no outpoint lock taken
during the loop remains held. -/
theorem feeSubtraction_loop_spec :
    haircutList.head? = some 0 ∧
    List.Chain' (fun a b => b = a + 5) haircutList ∧
    (∀ h ∈ haircutList, 0 ≤ h ∧ h ≤ 2000) ∧
    haircutList.length = 401 ∧
    ∀ (env : Env) (utxos : List String) (addr : String) (amount : Int)
      (feeRate : Nat) (st : St) (ops : List OutPointR) (psbt0 : Bytes) (feeSats : Int),
      env.connectErr = none →
      env.canRBF = false →
      utxos ≠ [] →
      parseInputs utxos = .ok ops →
      (∀ op, env.releaseOutput internalLockId op = none) →
      env.fundPsbt ops [] feeRate = .ok psbt0 →
      env.feeSatsFromPsbt psbt0 = .ok feeSats →
      (∀ outputs, outputs ≠ [] → ∃ m, env.fundPsbt ops outputs feeRate = .error m) →
      ∃ st2 e,
        SendCoinsWithUtxos env utxos addr amount feeRate true st = (st2, .error e) ∧
        fundEvents st2.trace = fundEvents st.trace ++
          (Ev.evFund ops [] feeRate ::
            haircutList.map (fun h =>
              Ev.evFund ops [(addr, clampAmt amount feeSats h)] feeRate)) ∧
        (∀ op ∈ ops, (internalLockId, op) ∉ st2.locks) := by
  refine ⟨?_, ?_, ?_, ?_, ?_⟩
  · rw [haircutList, show (401 : Nat) = 400 + 1 from rfl, List.range_succ_eq_map]
    simp
  · rw [haircutList]
    refine (List.chain'_map _).mpr ?_
    refine (List.chain'_range_succ _ 400).mpr ?_
    intro m hm
    push_cast
    ring
  · intro h hmem
    rw [haircutList] at hmem
    obtain ⟨i, hi, rfl⟩ := List.mem_map.mp hmem
    have hi400 : i < 401 := List.mem_range.mp hi
    constructor
    · positivity
    · have hle : (i : Int) ≤ 400 := by exact_mod_cast Nat.lt_succ_iff.mp hi400
      omega
  · simp [haircutList]
  intro env utxos addr amount feeRate st ops psbt0 feeSats
    hconn hrbf hne hp hri hfund0 hfee hfail
  have hstep : ∃ stL e,
      haircutLoop env utxos addr amount feeSats feeRate haircutList []
        (lockAddAll (addEv st (Ev.evFund ops [] feeRate)) internalLockId ops) =
        (stL, .exhausted e) ∧
      fundEvents stL.trace =
        fundEvents (lockAddAll (addEv st (Ev.evFund ops [] feeRate))
            internalLockId ops).trace ++
          haircutList.map (fun h =>
            Ev.evFund ops [(addr, clampAmt amount feeSats h)] feeRate) :=
    haircutLoop_exhausts env utxos addr amount feeSats feeRate ops hp hri hfail
      haircutList [] _ (by simp [haircutList]) (Or.inl rfl)
  obtain ⟨stL, e, hloop, hfe⟩ := hstep
  have hrelL := releaseIgnoringError_ok_run env internalLockId utxos ops stL hp
    (fun op _ => hri op)
  refine ⟨⟨remLocks stL.locks internalLockId ops,
      stL.trace ++ ops.map (Ev.evRelease internalLockId)⟩, e, ?_, ?_, ?_⟩
  · simp only [SendCoinsWithUtxos, hconn]
    rw [if_neg (fun hc => hne hc.2)]
    rw [if_neg (fun hc => by rw [hrbf] at hc; exact absurd hc.2 (by simp))]
    simp only [eq_self_iff_true, if_true]
    simp only [fundPsbtGo, hp, hfund0, hfee]
    simp only [hloop, hrelL]
  · show fundEvents (stL.trace ++ ops.map (Ev.evRelease internalLockId)) = _
    rw [fundEvents_append, fundEvents_releases, List.append_nil, hfe]
    simp [fundEvents]
  · intro op hop
    exact remLocks_not_mem internalLockId op ops _ hop

/-- Witness for C2: with a backend that funds only the empty output map,
the concrete subtract-fee send of 80 sats exhausts all 401 haircuts, the
error is surfaced, and the outpoint "t1:0" is not left locked. -/
theorem feeSubtraction_loop_spec_witness :
    ∃ st2 e,
      SendCoinsWithUtxos exhaustEnv ["t1:0"] "dest" 80 5 true ⟨[], []⟩ =
        (st2, .error e) ∧
      fundEvents st2.trace = fundEvents (⟨[], []⟩ : St).trace ++
        (Ev.evFund [⟨"t1", 0⟩] [] 5 ::
          haircutList.map (fun h =>
            Ev.evFund [⟨"t1", 0⟩] [("dest", clampAmt 80 10 h)] 5)) ∧
      (∀ op ∈ [(⟨"t1", 0⟩ : OutPointR)], (internalLockId, op) ∉ st2.locks) :=
  feeSubtraction_loop_spec.2.2.2.2 exhaustEnv ["t1:0"] "dest" 80 5 ⟨[], []⟩
    [⟨"t1", 0⟩] [1] 10 rfl rfl (by simp) rfl (fun _ => rfl) rfl rfl
    (fun outputs hne => ⟨"insufficient funds", by
      cases outputs with
      | nil => exact absurd rfl hne
      | cons a l => rfl⟩)

end PSWeb
